import Mathlib

/-!
Verification of the curve module of liblrs (src/curves.rs) against its
natural-language specification.

The source works with f64 planar coordinates through the geo crate, the
"metric kernel" of the specification.  The embedding models coordinates as
exact real numbers: every arithmetic operation of the source is total real
arithmetic, integer casts become floor / truncation, and the non-finite
float outcomes (NaN, infinities) that the source can only produce by
dividing by zero are modelled by explicit zero-divisor branches, noted at
each definition.  The geo primitives themselves are not part of the
repository; they are modelled from the spec's metric-kernel interface
(section 6) and pinned by the repository's own unit tests.
-/

namespace Liblrs

open Classical

/-- A planar point with real coordinates, modelling a geo Coord of f64 in exact arithmetic. -/
structure Point where
  x : ℝ
  y : ℝ

/-- A polyline, modelling a geo LineString: the ordered list of its coordinates. -/
abbrev LineString := List Point

/-- A segment, modelling a geo Line; the stop field models the end coordinate. -/
structure Line where
  start : Point
  stop : Point

/-- Euclidean distance between two points. -/
noncomputable def dist_pts (a b : Point) : ℝ :=
  Real.sqrt ((b.x - a.x) ^ 2 + (b.y - a.y) ^ 2)

/-- Length of one segment. -/
noncomputable def Line.euclidean_length (l : Line) : ℝ :=
  dist_pts l.start l.stop

/-- Constituent segments of a polyline, in polyline order, modelling the lines iterator. -/
def lines (ls : LineString) : List Line :=
  List.zipWith Line.mk ls ls.tail

/-- Total euclidean length of a polyline: the sum of its segment lengths. -/
noncomputable def euclidean_length (ls : LineString) : ℝ :=
  ((lines ls).map Line.euclidean_length).sum

/-- Errors when manipulating the curves, from CurveError in curves.rs. -/
inductive CurveError where
  | InvalidGeometry
  | NotFiniteCoordinates
  | NotOnTheCurve

/-- A curve: a polyline with a start offset along a larger logical curve and a
max extent used for the bounding box, from Curve in curves.rs. -/
structure Curve where
  start_offset : ℕ
  max_extent : ℕ
  geom : LineString

/-- A point in space projected on the curve, from CurveProjection in curves.rs. -/
structure CurveProjection where
  distance_along_curve : ℕ
  offset : ℤ

/-- Whether the polyline is a closed loop: its first coordinate equals its last. -/
def is_closed (ls : LineString) : Prop :=
  ls.head? = ls.getLast?

/-- Validity of the curve geometry, from Curve is_valid in curves.rs: at least
two coordinates, and when exactly two they must differ. -/
def Curve.is_valid (c : Curve) : Prop :=
  2 ≤ c.geom.length ∧ (2 < c.geom.length ∨ ¬ is_closed c.geom)

/-- Modelled from the spec: the metric kernel nearest-position capability on a
single segment: the fractional position, clamped to the unit interval, of the
point of the segment closest to p; zero on a degenerate segment. -/
noncomputable def Line.line_locate_point (l : Line) (p : Point) : ℝ :=
  let dx := l.stop.x - l.start.x
  let dy := l.stop.y - l.start.y
  let d2 := dx ^ 2 + dy ^ 2
  if d2 = 0 then 0
  else min 1 (max 0 (((p.x - l.start.x) * dx + (p.y - l.start.y) * dy) / d2))

/-- Point of a segment at a fractional position t of its length. -/
noncomputable def Line.interp (l : Line) (t : ℝ) : Point :=
  ⟨l.start.x + t * (l.stop.x - l.start.x), l.start.y + t * (l.stop.y - l.start.y)⟩

/-- Modelled from the spec: kernel point-to-segment distance: the distance to
the closest point of the segment. -/
noncomputable def Line.distance_to_point (l : Line) (p : Point) : ℝ :=
  dist_pts p (l.interp (l.line_locate_point p))

/-- Scan of the constituent segments keeping the fraction of the closest
segment seen so far, modelling the nearest-position scan of the metric kernel
over a polyline: cum is the length before the current segment, bd the best
distance so far and bf the fraction it was reached at. -/
noncomputable def locate_go (p : Point) (total : ℝ) :
    List Line → ℝ → ℝ → ℝ → ℝ
  | [], _, _, bf => bf
  | l :: rest, cum, bd, bf =>
    let d := l.distance_to_point p
    let len := l.euclidean_length
    if d < bd then
      locate_go p total rest (cum + len) d ((cum + l.line_locate_point p * len) / total)
    else
      locate_go p total rest (cum + len) bd bf

/-- Modelled from the spec: kernel capability (a), nearest fractional position
of a point on a polyline, zero for a zero-length polyline.  In the exact real
model a value is always produced; the absent case of the interface corresponds
to non-finite floating computations, which cannot arise here. -/
noncomputable def line_locate_point (ls : LineString) (p : Point) : Option ℝ :=
  let total := euclidean_length ls
  if total = 0 then some 0
  else
    match lines ls with
    | [] => some 0
    | l :: rest =>
      some (locate_go p total rest l.euclidean_length (l.distance_to_point p)
        (l.line_locate_point p * l.euclidean_length / total))

/-- Modelled from the spec: kernel capability (c), point-to-polyline distance:
the least of the distances to the constituent segments. -/
noncomputable def Point.euclidean_distance (p : Point) (ls : LineString) : ℝ :=
  match lines ls with
  | [] => 0
  | l :: rest => rest.foldl (fun acc seg => min acc (seg.distance_to_point p)) (l.distance_to_point p)

/-- Orientation of an ordered triple of points, from the geo kernel. -/
inductive Orientation where
  | Clockwise
  | CounterClockwise
  | Collinear

/-- Modelled from the spec: kernel capability (g), the robust orientation test
of three points, decided by the sign of the cross product. -/
noncomputable def orient2d (p q r : Point) : Orientation :=
  let cross := (q.x - p.x) * (r.y - p.y) - (q.y - p.y) * (r.x - p.x)
  if cross < 0 then .Clockwise
  else if 0 < cross then .CounterClockwise
  else .Collinear

/-- Truncation toward zero of a real number, modelling the Rust as-cast from
f64 to a signed machine integer. -/
noncomputable def trunc (x : ℝ) : ℤ :=
  if 0 ≤ x then ⌊x⌋ else ⌈x⌉

/-- Projection of a point to the closest position on the curve, from Curve
project in curves.rs: validity gate, kernel locate, floor of the absolute
distance plus the start offset, and the signed lateral offset whose sign comes
from the orientation of the point against the segment from the last coordinate
to the first. -/
noncomputable def Curve.project (c : Curve) (p : Point) : Except CurveError CurveProjection :=
  if c.is_valid then
    match line_locate_point c.geom p with
    | some location =>
      let distance_along_curve := ⌊location * euclidean_length c.geom⌋₊ + c.start_offset
      let begin_ := c.geom.headD ⟨0, 0⟩
      let end_ := c.geom.getLastD ⟨0, 0⟩
      let sign : ℝ := match orient2d p end_ begin_ with
        | .Clockwise => 1
        | _ => -1
      Except.ok ⟨distance_along_curve, trunc (p.euclidean_distance c.geom * sign)⟩
    | none => Except.error .NotFiniteCoordinates
  else Except.error .InvalidGeometry

/-- Length of the curve truncated to a natural number, from Curve length in curves.rs. -/
noncomputable def Curve.length (c : Curve) : ℕ :=
  ⌊euclidean_length c.geom⌋₊

/-- Interpolation walk along the segments: the first segment whose cumulative
span reaches the target yields the point, modelling the kernel interpolation
walk; a degenerate segment met at the target yields its start, and an
exhausted walk the fallback, the last coordinate. -/
noncomputable def interp_go (target : ℝ) : List Line → ℝ → Point → Point
  | [], _, fallback => fallback
  | l :: rest, cum, fallback =>
    let len := l.euclidean_length
    if target ≤ cum + len then
      if len = 0 then l.start else l.interp ((target - cum) / len)
    else interp_go target rest (cum + len) fallback

/-- Modelled from the spec: kernel capability (d), fractional interpolation
yielding the coordinate point of a polyline at a fraction of its total length. -/
noncomputable def line_interpolate_point (ls : LineString) (fraction : ℝ) : Point :=
  interp_go (euclidean_length ls * fraction) (lines ls) 0 (ls.getLastD ⟨0, 0⟩)

/-- Geographical position of a projection on the curve, from Curve resolve in
curves.rs.  In the f64 source a zero integer length makes the fraction NaN or
infinite and the range guard rejects it, so the zero-length case is an
explicit NotOnTheCurve branch of the model. -/
noncomputable def Curve.resolve (c : Curve) (projection : CurveProjection) : Except CurveError Point :=
  if c.length = 0 then Except.error .NotOnTheCurve
  else
    let fraction := ((projection.distance_along_curve : ℝ) - (c.start_offset : ℝ)) / (c.length : ℝ)
    if fraction < 0 ∨ 1 < fraction then Except.error .NotOnTheCurve
    else Except.ok (line_interpolate_point c.geom fraction)

/-- An axis-aligned rectangle, modelling a geo Rect by its two corners. -/
structure Rect where
  min : Point
  max : Point

/-- Tight axis-aligned bounding rectangle of a polyline, nothing when it is
empty, modelling the kernel bounding_rect. -/
noncomputable def bounding_rect : LineString → Option Rect
  | [] => none
  | p :: rest =>
    some ⟨⟨rest.foldl (fun a q => min a q.x) p.x, rest.foldl (fun a q => min a q.y) p.y⟩,
      ⟨rest.foldl (fun a q => max a q.x) p.x, rest.foldl (fun a q => max a q.y) p.y⟩⟩

/-- Bounding box of the curve buffered by max_extent on all four sides, from
Curve bbox in curves.rs; the absent case models the panic on an empty geometry. -/
noncomputable def Curve.bbox (c : Curve) : Option Rect :=
  (bounding_rect c.geom).map fun br =>
    ⟨⟨br.min.x - (c.max_extent : ℝ), br.min.y - (c.max_extent : ℝ)⟩,
     ⟨br.max.x + (c.max_extent : ℝ), br.max.y + (c.max_extent : ℝ)⟩⟩

/-- Outcome of crossing two segments, from the geo kernel: a single crossing
point with its properness flag, or a collinear overlap segment. -/
inductive LineIntersection where
  | SinglePoint (intersection : Point) ( is_proper : Bool)
  | Collinear (intersection : Line)

/-- Axis-aligned bounding rectangle of one segment. -/
noncomputable def Line.bounding_rect (l : Line) : Rect :=
  ⟨⟨min l.start.x l.stop.x, min l.start.y l.stop.y⟩,
   ⟨max l.start.x l.stop.x, max l.start.y l.stop.y⟩⟩

/-- Whether a rectangle holds a point, bounds included. -/
def Rect.holds (r : Rect) (p : Point) : Prop :=
  r.min.x ≤ p.x ∧ p.x ≤ r.max.x ∧ r.min.y ≤ p.y ∧ p.y ≤ r.max.y

/-- Whether two rectangles overlap, bounds included. -/
def Rect.intersects (a b : Rect) : Prop :=
  a.min.x ≤ b.max.x ∧ b.min.x ≤ a.max.x ∧ a.min.y ≤ b.max.y ∧ b.min.y ≤ a.max.y

/-- Whether two orientations are the same strict side. -/
def same_side : Orientation → Orientation → Bool
  | .Clockwise, .Clockwise => true
  | .CounterClockwise, .CounterClockwise => true
  | _, _ => false

/-- Whether an orientation is the collinear one. -/
def Orientation.isCollinear : Orientation → Bool
  | .Collinear => true
  | _ => false

/-- Crossing point of two properly crossing segments, by the parametric
solution on the first segment; the division is non-degenerate whenever the
segments properly cross. -/
noncomputable def proper_point (p q : Line) : Point :=
  let pdx := p.stop.x - p.start.x
  let pdy := p.stop.y - p.start.y
  let qdx := q.stop.x - q.start.x
  let qdy := q.stop.y - q.start.y
  let t := ((q.start.x - p.start.x) * qdy - (q.start.y - p.start.y) * qdx)
    / (pdx * qdy - pdy * qdx)
  ⟨p.start.x + t * pdx, p.start.y + t * pdy⟩

/-- Modelled from the spec: the collinear branch of the crossing detection
kernel: full overlap yields the overlap as a Collinear outcome, touching at
exactly one coordinate the improper single point, disjoint collinear segments
nothing. -/
noncomputable def collinear_intersection (p q : Line) : Option LineIntersection :=
  let pb := p.bounding_rect
  let qb := q.bounding_rect
  if pb.holds q.start ∧ pb.holds q.stop then some (.Collinear q)
  else if qb.holds p.start ∧ qb.holds p.stop then some (.Collinear p)
  else if pb.holds q.start ∧ qb.holds p.start then
    (if q.start = p.start then some (.SinglePoint q.start false)
     else some (.Collinear ⟨q.start, p.start⟩))
  else if pb.holds q.start ∧ qb.holds p.stop then
    (if q.start = p.stop then some (.SinglePoint q.start false)
     else some (.Collinear ⟨q.start, p.stop⟩))
  else if pb.holds q.stop ∧ qb.holds p.start then
    (if q.stop = p.start then some (.SinglePoint q.stop false)
     else some (.Collinear ⟨q.stop, p.start⟩))
  else if pb.holds q.stop ∧ qb.holds p.stop then
    (if q.stop = p.stop then some (.SinglePoint q.stop false)
     else some (.Collinear ⟨q.stop, p.stop⟩))
  else none

/-- Modelled from the spec: kernel capability (e), crossing detection between
two segments by robust orientation tests, distinguishing a single crossing
point, proper when in the strict interior of both segments, from a collinear
overlap. -/
noncomputable def line_intersection (p q : Line) : Option LineIntersection :=
  if ¬ Rect.intersects p.bounding_rect q.bounding_rect then none
  else
    let p_q1 := orient2d p.start p.stop q.start
    let p_q2 := orient2d p.start p.stop q.stop
    let q_p1 := orient2d q.start q.stop p.start
    let q_p2 := orient2d q.start q.stop p.stop
    if same_side p_q1 p_q2 then none
    else if same_side q_p1 q_p2 then none
    else if p_q1.isCollinear ∧ p_q2.isCollinear ∧ q_p1.isCollinear ∧ q_p2.isCollinear then
      collinear_intersection p q
    else if p_q1.isCollinear then some (.SinglePoint q.start false)
    else if p_q2.isCollinear then some (.SinglePoint q.stop false)
    else if q_p1.isCollinear then some (.SinglePoint p.start false)
    else if q_p2.isCollinear then some (.SinglePoint p.stop false)
    else some (.SinglePoint (proper_point p q) true)

/-- The closure of intersect_segment in curves.rs: keep a single crossing
point, drop the collinear and absent outcomes. -/
noncomputable def pick_crossing (segment curve_line : Line) : Option Point :=
  match line_intersection segment curve_line with
  | some (.SinglePoint intersection _) => some intersection
  | _ => none

/-- Intersection of the curve with a segment, from Curve intersect_segment in
curves.rs: the first single-point crossing in polyline order; collinear
overlaps are skipped, and no crossing is the absent value. -/
noncomputable def Curve.intersect_segment (c : Curve) (segment : Line) : Option Point :=
  ((lines c.geom).filterMap (pick_crossing segment)).head?

/-- Modelled from the spec: the segment-containment test used by the normal
computation to find the segment holding the resolved point: the point is
collinear with the segment and inside its bounding rectangle. -/
def line_contains (l : Line) (p : Point) : Prop :=
  orient2d l.start l.stop p = .Collinear ∧ l.bounding_rect.holds p

/-- First segment of the list containing the point, modelling the find of the
lines iterator in get_normal. -/
noncomputable def find_segment (p : Point) : List Line → Option Line
  | [] => none
  | l :: rest => if line_contains l p then some l else find_segment p rest

/-- Translation of a point by a vector. -/
noncomputable def translate_by (dx dy : ℝ) (p : Point) : Point :=
  ⟨p.x + dx, p.y + dy⟩

/-- Uniform scaling of a point about an origin. -/
noncomputable def scale_about (k : ℝ) (o p : Point) : Point :=
  ⟨o.x + k * (p.x - o.x), o.y + k * (p.y - o.y)⟩

/-- Rotation of a point by ninety degrees counterclockwise about an origin. -/
noncomputable def rotate90_about (o p : Point) : Point :=
  ⟨o.x - (p.y - o.y), o.y + (p.x - o.x)⟩

/-- Normal at an offset on the curve, from Curve get_normal in curves.rs:
resolve the offset to a point, find the segment containing it, and transform
that segment by the affine chain built from a translation by the in-segment
position of the point, a scaling by the inverse segment length about the
segment start and a ninety-degree rotation about the segment start.  The
observable application order of the chain, rotation first, then scaling, then
translation, is pinned by the repository's own normal unit test.  The kernel
in-segment position lookup always yields a value in exact arithmetic, so its
non-finite error branch of the source cannot arise here. -/
noncomputable def Curve.get_normal (c : Curve) (off : ℕ) : Except CurveError Line :=
  match c.resolve ⟨off, 0⟩ with
  | .error e => .error e
  | .ok point =>
    match find_segment point (lines c.geom) with
    | none => .error .NotFiniteCoordinates
    | some line =>
      let length := line.euclidean_length
      let position := line.line_locate_point point
      let dx := (line.stop.x - line.start.x) * position
      let dy := (line.stop.y - line.start.y) * position
      let f := fun p =>
        translate_by dx dy (scale_about (1 / length) line.start (rotate90_about line.start p))
      .ok ⟨f line.start, f line.stop⟩

/-- Modelled from the spec: the normal construction exactly as the spec words
it: translate the segment so that its start coincides with the resolved
point, uniformly scale by the inverse of the segment length, then rotate
ninety degrees about the translated start point. -/
noncomputable def normal_spec_map (seg : Line) (point p : Point) : Point :=
  rotate90_about point (scale_about (1 / seg.euclidean_length) point
    (translate_by (point.x - seg.start.x) (point.y - seg.start.y) p))

/-- Build a new curve from a polyline, from Curve new in curves.rs: start
offset zero and the given max extent. -/
def Curve.new (geom : LineString) (max_extent : ℕ) : Curve :=
  ⟨0, max_extent, geom⟩

/-- Modelled from the spec: kernel capability (f), equal-length segmentation
of a polyline into n pieces, nothing when the polyline has fewer than two
coordinates or n is zero; piece i spans the fractions i / n to (i + 1) / n of
the total length. -/
noncomputable def line_segmentize (ls : LineString) (n : ℕ) : Option (List LineString) :=
  if 2 ≤ ls.length ∧ 1 ≤ n then
    some ((List.range n).map fun (i : ℕ) =>
      [line_interpolate_point ls ((i : ℝ) / (n : ℝ)),
       line_interpolate_point ls (((i : ℝ) + 1) / (n : ℝ))])
  else none

/-- Splits the polyline into curves of at most max_len length, from Curve
new_fragmented in curves.rs: the piece count is the ceiling of the total
length divided by max_len, and a failed segmentation yields the empty list. -/
noncomputable def Curve.new_fragmented (geom : LineString) (max_len : ℕ) (max_extent : ℕ) :
    List Curve :=
  let n := (⌈euclidean_length geom / (max_len : ℝ)⌉).toNat
  ((line_segmentize geom n).map fun multi => multi.map fun g => Curve.new g max_extent).getD []

/-- The two point test path of the repository tests: the origin to two units east. -/
def geom2 : LineString := [⟨0, 0⟩, ⟨2, 0⟩]

/-- The repository test curve over geom2, with max extent one. -/
def curve2 : Curve := ⟨0, 1, geom2⟩

/-- The single segment of geom2. -/
def seg2 : Line := ⟨⟨0, 0⟩, ⟨2, 0⟩⟩

lemma dist_pts_nonneg (a b : Point) : 0 ≤ dist_pts a b :=
  Real.sqrt_nonneg _

lemma Line.euclidean_length_nonneg (l : Line) : 0 ≤ l.euclidean_length :=
  Real.sqrt_nonneg _

lemma eulen_nonneg (ls : LineString) : 0 ≤ euclidean_length ls := by
  refine List.sum_nonneg ?_
  intro x hx
  obtain ⟨l, _, rfl⟩ := List.mem_map.mp hx
  exact l.euclidean_length_nonneg

lemma dist_pts_self (a : Point) : dist_pts a a = 0 := by
  unfold dist_pts
  simp

lemma Line.line_locate_point_nonneg (l : Line) (p : Point) :
    0 ≤ l.line_locate_point p := by
  unfold Line.line_locate_point
  by_cases h : (l.stop.x - l.start.x) ^ 2 + (l.stop.y - l.start.y) ^ 2 = 0
  · simp [h]
  · simp only [h, if_false]
    exact le_min zero_le_one (le_max_left 0 _)

lemma Line.line_locate_point_le_one (l : Line) (p : Point) :
    l.line_locate_point p ≤ 1 := by
  unfold Line.line_locate_point
  by_cases h : (l.stop.x - l.start.x) ^ 2 + (l.stop.y - l.start.y) ^ 2 = 0
  · simp [h]
  · simp only [h, if_false]
    exact min_le_left 1 _

lemma trunc_nonneg {x : ℝ} (h : 0 ≤ x) : 0 ≤ trunc x := by
  unfold trunc
  rw [if_pos h]
  exact Int.floor_nonneg.mpr h

lemma trunc_nonpos {x : ℝ} (h : x ≤ 0) : trunc x ≤ 0 := by
  unfold trunc
  split_ifs with h0
  · have hx : x = 0 := le_antisymm h h0
    simp [hx]
  · exact Int.ceil_le.mpr (by exact_mod_cast h)

lemma trunc_of_nat (n : ℕ) : trunc (n : ℝ) = n := by
  unfold trunc
  rw [if_pos (by positivity)]
  simp

lemma lines_geom2 : lines geom2 = [seg2] := rfl

lemma seg2_length : seg2.euclidean_length = 2 := by
  show Real.sqrt ((2 - 0) ^ 2 + (0 - 0) ^ 2) = 2
  rw [show ((2:ℝ) - 0) ^ 2 + ((0:ℝ) - 0) ^ 2 = 2 ^ 2 by norm_num]
  exact Real.sqrt_sq (by norm_num)

lemma eulen_geom2 : euclidean_length geom2 = 2 := by
  unfold euclidean_length
  rw [lines_geom2]
  simp [seg2_length]

lemma curve2_length : curve2.length = 2 := by
  show ⌊euclidean_length geom2⌋₊ = 2
  rw [eulen_geom2]
  simp

lemma seg2_locate_11 : seg2.line_locate_point ⟨1, 1⟩ = 1 / 2 := by
  unfold Line.line_locate_point
  norm_num [seg2]

lemma seg2_interp_half : seg2.interp (1 / 2) = ⟨1, 0⟩ := by
  unfold Line.interp
  norm_num [seg2]

lemma seg2_dist_11 : seg2.distance_to_point ⟨1, 1⟩ = 1 := by
  unfold Line.distance_to_point
  rw [seg2_locate_11, seg2_interp_half]
  show Real.sqrt ((1 - 1) ^ 2 + (0 - 1) ^ 2) = 1
  rw [show ((1:ℝ) - 1) ^ 2 + ((0:ℝ) - 1) ^ 2 = 1 by norm_num]
  exact Real.sqrt_one

lemma locate_geom2_11 : line_locate_point geom2 ⟨1, 1⟩ = some (1 / 2) := by
  simp only [line_locate_point, lines_geom2, eulen_geom2]
  norm_num [locate_go, seg2_locate_11, seg2_length]

lemma dist_geom2_11 : (Point.mk 1 1).euclidean_distance geom2 = 1 := by
  unfold Point.euclidean_distance
  rw [lines_geom2]
  simp [seg2_dist_11]

lemma orient_11 : orient2d ⟨1, 1⟩ ⟨2, 0⟩ ⟨0, 0⟩ = .Clockwise := by
  unfold orient2d
  norm_num

lemma curve2_valid : curve2.is_valid := by
  constructor
  · simp [curve2, geom2]
  · right
    simp [is_closed, curve2, geom2]

lemma trunc_one : trunc 1 = 1 := by
  unfold trunc
  rw [if_pos (by norm_num)]
  simp

lemma project_11 : curve2.project ⟨1, 1⟩ = .ok ⟨1, 1⟩ := by
  unfold Curve.project
  rw [if_pos curve2_valid]
  simp only [curve2, locate_geom2_11, eulen_geom2, dist_geom2_11]
  rw [show geom2.headD ⟨0, 0⟩ = ⟨0, 0⟩ from rfl, show geom2.getLastD ⟨0, 0⟩ = ⟨2, 0⟩ from rfl]
  rw [orient_11]
  norm_num [trunc_one]


lemma seg2_locate_1m1 : seg2.line_locate_point ⟨1, -1⟩ = 1 / 2 := by
  unfold Line.line_locate_point
  norm_num [seg2]

lemma seg2_dist_1m1 : seg2.distance_to_point ⟨1, -1⟩ = 1 := by
  unfold Line.distance_to_point
  rw [seg2_locate_1m1, seg2_interp_half]
  show Real.sqrt ((1 - 1) ^ 2 + (0 - -1) ^ 2) = 1
  rw [show ((1:ℝ) - 1) ^ 2 + ((0:ℝ) - -1) ^ 2 = 1 by norm_num]
  exact Real.sqrt_one

lemma locate_geom2_1m1 : line_locate_point geom2 ⟨1, -1⟩ = some (1 / 2) := by
  simp only [line_locate_point, lines_geom2, eulen_geom2]
  norm_num [locate_go, seg2_locate_1m1, seg2_length]

lemma dist_geom2_1m1 : (Point.mk 1 (-1)).euclidean_distance geom2 = 1 := by
  unfold Point.euclidean_distance
  rw [lines_geom2]
  simp [seg2_dist_1m1]

lemma orient_1m1 : orient2d ⟨1, -1⟩ ⟨2, 0⟩ ⟨0, 0⟩ = .CounterClockwise := by
  unfold orient2d
  norm_num

lemma trunc_neg_one : trunc (-1) = -1 := by
  unfold trunc
  rw [if_neg (by norm_num), show ((-1:ℝ)) = ((-1 : ℤ) : ℝ) by norm_num, Int.ceil_intCast]

lemma project_1m1 : curve2.project ⟨1, -1⟩ = .ok ⟨1, -1⟩ := by
  unfold Curve.project
  rw [if_pos curve2_valid]
  simp only [curve2, locate_geom2_1m1, eulen_geom2, dist_geom2_1m1]
  rw [show geom2.headD ⟨0, 0⟩ = ⟨0, 0⟩ from rfl, show geom2.getLastD ⟨0, 0⟩ = ⟨2, 0⟩ from rfl]
  rw [orient_1m1]
  norm_num [trunc_neg_one]

lemma interp_geom2_half : line_interpolate_point geom2 (1 / 2) = ⟨1, 0⟩ := by
  unfold line_interpolate_point
  rw [lines_geom2, eulen_geom2]
  unfold interp_go
  simp only [seg2_length]
  rw [if_pos (by norm_num : (2:ℝ) * (1 / 2) ≤ 0 + 2), if_neg (by norm_num : ¬ (2:ℝ) = 0)]
  rw [show ((2:ℝ) * (1 / 2) - 0) / 2 = 1 / 2 by norm_num]
  exact seg2_interp_half

lemma resolve_curve2_1 : curve2.resolve ⟨1, 0⟩ = .ok ⟨1, 0⟩ := by
  unfold Curve.resolve
  rw [if_neg (by rw [curve2_length]; norm_num)]
  rw [if_neg (by rw [curve2_length]; push_cast [curve2]; norm_num)]
  rw [show ((((1:ℕ):ℝ) - ((curve2.start_offset:ℕ):ℝ)) / ((curve2.length:ℕ):ℝ)) = 1 / 2 by
    rw [curve2_length]; simp [curve2]]
  exact congrArg Except.ok interp_geom2_half

lemma resolve_curve2_4 : curve2.resolve ⟨4, 0⟩ = .error .NotOnTheCurve := by
  unfold Curve.resolve
  rw [if_neg (by rw [curve2_length]; norm_num)]
  rw [if_pos (by rw [curve2_length]; push_cast [curve2]; norm_num)]


lemma seg2_locate_10 : seg2.line_locate_point ⟨1, 0⟩ = 1 / 2 := by
  unfold Line.line_locate_point
  norm_num [seg2]

lemma contains_seg2_10 : line_contains seg2 ⟨1, 0⟩ := by
  constructor
  · unfold orient2d
    norm_num [seg2]
  · unfold Line.bounding_rect Rect.holds
    norm_num [seg2]

lemma find_segment_geom2_10 : find_segment ⟨1, 0⟩ [seg2] = some seg2 := by
  unfold find_segment
  rw [if_pos contains_seg2_10]

lemma normal_curve2_1 : curve2.get_normal 1 = .ok ⟨⟨1, 0⟩, ⟨1, 1⟩⟩ := by
  unfold Curve.get_normal
  simp only [resolve_curve2_1]
  rw [show lines curve2.geom = [seg2] from rfl]
  simp only [find_segment_geom2_10]
  simp only [seg2_length, seg2_locate_10]
  unfold translate_by scale_about rotate90_about
  norm_num [seg2]


/-- The perpendicular test segment of the repository intersection test. -/
def vseg : Line := ⟨⟨1, 1⟩, ⟨1, -1⟩⟩

/-- The disjoint test segment of the repository intersection test. -/
def farseg : Line := ⟨⟨10, 10⟩, ⟨20, 10⟩⟩

/-- The collinear test segment of the repository intersection test. -/
def colseg : Line := ⟨⟨0, 0⟩, ⟨1, 0⟩⟩

lemma li_cross : line_intersection vseg seg2 = some (.SinglePoint ⟨1, 0⟩ true) := by
  have hbb : Rect.intersects vseg.bounding_rect seg2.bounding_rect := by
    unfold Line.bounding_rect Rect.intersects
    norm_num [vseg, seg2]
  have o1 : orient2d vseg.start vseg.stop seg2.start = .Clockwise := by
    unfold orient2d; norm_num [vseg, seg2]
  have o2 : orient2d vseg.start vseg.stop seg2.stop = .CounterClockwise := by
    unfold orient2d; norm_num [vseg, seg2]
  have o3 : orient2d seg2.start seg2.stop vseg.start = .CounterClockwise := by
    unfold orient2d; norm_num [vseg, seg2]
  have o4 : orient2d seg2.start seg2.stop vseg.stop = .Clockwise := by
    unfold orient2d; norm_num [vseg, seg2]
  unfold line_intersection
  rw [if_neg (not_not_intro hbb)]
  simp only [o1, o2, o3, o4, same_side, Orientation.isCollinear]
  norm_num [proper_point, vseg, seg2]

lemma li_far : line_intersection farseg seg2 = none := by
  have hbb : ¬ Rect.intersects farseg.bounding_rect seg2.bounding_rect := by
    unfold Line.bounding_rect Rect.intersects
    norm_num [farseg, seg2]
  unfold line_intersection
  rw [if_pos hbb]

lemma li_col : line_intersection colseg seg2 = some (.Collinear colseg) := by
  have hbb : Rect.intersects colseg.bounding_rect seg2.bounding_rect := by
    unfold Line.bounding_rect Rect.intersects
    norm_num [colseg, seg2]
  have o1 : orient2d colseg.start colseg.stop seg2.start = .Collinear := by
    unfold orient2d; norm_num [colseg, seg2]
  have o2 : orient2d colseg.start colseg.stop seg2.stop = .Collinear := by
    unfold orient2d; norm_num [colseg, seg2]
  have o3 : orient2d seg2.start seg2.stop colseg.start = .Collinear := by
    unfold orient2d; norm_num [colseg, seg2]
  have o4 : orient2d seg2.start seg2.stop colseg.stop = .Collinear := by
    unfold orient2d; norm_num [colseg, seg2]
  unfold line_intersection
  rw [if_neg (not_not_intro hbb)]
  simp only [o1, o2, o3, o4, same_side, Orientation.isCollinear]
  norm_num
  unfold collinear_intersection Line.bounding_rect Rect.holds
  norm_num [colseg, seg2]

lemma isect_cross : curve2.intersect_segment vseg = some ⟨1, 0⟩ := by
  unfold Curve.intersect_segment
  rw [show lines curve2.geom = [seg2] from rfl]
  simp [pick_crossing, li_cross]

lemma isect_far : curve2.intersect_segment farseg = none := by
  unfold Curve.intersect_segment
  rw [show lines curve2.geom = [seg2] from rfl]
  simp [pick_crossing, li_far]

lemma isect_col : curve2.intersect_segment colseg = none := by
  unfold Curve.intersect_segment
  rw [show lines curve2.geom = [seg2] from rfl]
  simp [pick_crossing, li_col]


/-- The two leg test path of the repository multiple-intersection test. -/
def geom3 : LineString := [⟨0, 0⟩, ⟨1, 2⟩, ⟨2, 0⟩]

/-- The curve over geom3 with max extent one. -/
def curve3 : Curve := ⟨0, 1, geom3⟩

/-- First leg of geom3. -/
def l31 : Line := ⟨⟨0, 0⟩, ⟨1, 2⟩⟩

/-- Second leg of geom3. -/
def l32 : Line := ⟨⟨1, 2⟩, ⟨2, 0⟩⟩

/-- The horizontal test segment crossing both legs of geom3. -/
def hseg : Line := ⟨⟨0, 1⟩, ⟨2, 1⟩⟩

lemma lines_geom3 : lines geom3 = [l31, l32] := rfl

lemma li_h1 : line_intersection hseg l31 = some (.SinglePoint ⟨1 / 2, 1⟩ true) := by
  have hbb : Rect.intersects hseg.bounding_rect l31.bounding_rect := by
    unfold Line.bounding_rect Rect.intersects
    norm_num [hseg, l31]
  have o1 : orient2d hseg.start hseg.stop l31.start = .Clockwise := by
    unfold orient2d; norm_num [hseg, l31]
  have o2 : orient2d hseg.start hseg.stop l31.stop = .CounterClockwise := by
    unfold orient2d; norm_num [hseg, l31]
  have o3 : orient2d l31.start l31.stop hseg.start = .CounterClockwise := by
    unfold orient2d; norm_num [hseg, l31]
  have o4 : orient2d l31.start l31.stop hseg.stop = .Clockwise := by
    unfold orient2d; norm_num [hseg, l31]
  unfold line_intersection
  rw [if_neg (not_not_intro hbb)]
  simp only [o1, o2, o3, o4, same_side, Orientation.isCollinear]
  norm_num [proper_point, hseg, l31]

lemma isect_multi : curve3.intersect_segment hseg = some ⟨1 / 2, 1⟩ := by
  unfold Curve.intersect_segment
  rw [show lines curve3.geom = [l31, l32] from rfl]
  rw [List.filterMap_cons]
  simp only [pick_crossing, li_h1]
  simp


lemma bbox_curve2 : curve2.bbox = some ⟨⟨-1, -1⟩, ⟨3, 1⟩⟩ := by
  unfold Curve.bbox bounding_rect
  norm_num [curve2, geom2]

lemma interp_geom2_0 : line_interpolate_point geom2 0 = ⟨0, 0⟩ := by
  unfold line_interpolate_point
  rw [lines_geom2, eulen_geom2]
  unfold interp_go
  rw [seg2_length]
  rw [if_pos (by norm_num : (2:ℝ) * 0 ≤ 0 + 2), if_neg (by norm_num : ¬ (2:ℝ) = 0)]
  unfold Line.interp
  norm_num [seg2]

lemma interp_geom2_1 : line_interpolate_point geom2 1 = ⟨2, 0⟩ := by
  unfold line_interpolate_point
  rw [lines_geom2, eulen_geom2]
  unfold interp_go
  rw [seg2_length]
  rw [if_pos (by norm_num : (2:ℝ) * 1 ≤ 0 + 2), if_neg (by norm_num : ¬ (2:ℝ) = 0)]
  unfold Line.interp
  norm_num [seg2]

lemma segmentize_geom2 : line_segmentize geom2 2 =
    some [[⟨0, 0⟩, ⟨1, 0⟩], [⟨1, 0⟩, ⟨2, 0⟩]] := by
  unfold line_segmentize
  rw [if_pos (by constructor <;> norm_num [geom2])]
  simp only [show List.range 2 = [0, 1] from rfl, List.map_cons, List.map_nil]
  rw [show ((0:ℕ):ℝ) / ((2:ℕ):ℝ) = 0 by norm_num]
  rw [show (((0:ℕ):ℝ) + 1) / ((2:ℕ):ℝ) = 1 / 2 by norm_num]
  rw [show ((1:ℕ):ℝ) / ((2:ℕ):ℝ) = 1 / 2 by norm_num]
  rw [show (((1:ℕ):ℝ) + 1) / ((2:ℕ):ℝ) = 1 by norm_num]
  rw [interp_geom2_0, interp_geom2_half, interp_geom2_1]

lemma frag_geom2 : Curve.new_fragmented geom2 1 1 =
    [Curve.new [⟨0, 0⟩, ⟨1, 0⟩] 1, Curve.new [⟨1, 0⟩, ⟨2, 0⟩] 1] := by
  unfold Curve.new_fragmented
  show (Option.map (fun multi => List.map (fun g => Curve.new g 1) multi)
    (line_segmentize geom2 (⌈euclidean_length geom2 / ((1:ℕ):ℝ)⌉).toNat)).getD [] = _
  rw [show (⌈euclidean_length geom2 / ((1:ℕ):ℝ)⌉).toNat = 2 by
    rw [eulen_geom2]; norm_num; decide]
  rw [segmentize_geom2]
  rfl

lemma frag_piece1_length : (Curve.new [⟨0, 0⟩, ⟨1, 0⟩] 1).length = 1 := by
  show ⌊euclidean_length [⟨0, 0⟩, ⟨1, 0⟩]⌋₊ = 1
  have h : euclidean_length [(⟨0, 0⟩ : Point), ⟨1, 0⟩] = 1 := by
    unfold euclidean_length lines Line.euclidean_length dist_pts
    norm_num
  rw [h]
  norm_num

lemma frag_piece2_length : (Curve.new [⟨1, 0⟩, ⟨2, 0⟩] 1).length = 1 := by
  show ⌊euclidean_length [⟨1, 0⟩, ⟨2, 0⟩]⌋₊ = 1
  have h : euclidean_length [(⟨1, 0⟩ : Point), ⟨2, 0⟩] = 1 := by
    unfold euclidean_length lines Line.euclidean_length dist_pts
    norm_num
  rw [h]
  norm_num



lemma invalid_eulen_zero (c : Curve) (h : ¬ c.is_valid) : euclidean_length c.geom = 0 := by
  unfold Curve.is_valid at h
  push_neg at h
  rcases hg : c.geom with _ | ⟨a, _ | ⟨b, rest⟩⟩
  · unfold euclidean_length lines
    simp
  · unfold euclidean_length lines
    simp
  · rw [hg] at h
    obtain ⟨hlen, hcl⟩ := h (by simp)
    cases rest with
    | cons x xs =>
      simp only [List.length_cons] at hlen
      omega
    | nil =>
      unfold is_closed at hcl
      simp at hcl
      subst hcl
      unfold euclidean_length lines Line.euclidean_length
      simp [dist_pts_self]

lemma invalid_length_zero (c : Curve) (h : ¬ c.is_valid) : c.length = 0 := by
  unfold Curve.length
  rw [invalid_eulen_zero c h]
  simp

/-- C1 (amended): for every invalid Path, project fails with InvalidGeometry,
while resolve and get_normal also fail on every input, but with NotOnTheCurve:
the zero truncated length makes the resolve fraction non-finite in the source,
and get_normal propagates the resolve error. -/
theorem C1_invalid_gate (c : Curve) (h : ¬ c.is_valid) :
    (∀ p : Point, c.project p = .error .InvalidGeometry) ∧
    (∀ pr : CurveProjection, c.resolve pr = .error .NotOnTheCurve) ∧
    (∀ d : ℕ, c.get_normal d = .error .NotOnTheCurve) := by
  have hres : ∀ pr : CurveProjection, c.resolve pr = .error .NotOnTheCurve := by
    intro pr
    unfold Curve.resolve
    rw [if_pos (invalid_length_zero c h)]
  refine ⟨?_, hres, ?_⟩
  · intro p
    unfold Curve.project
    rw [if_neg h]
  · intro d
    unfold Curve.get_normal
    simp only [hres]

/-- The one point curve, an invalid geometry. -/
def cBad : Curve := ⟨0, 0, [⟨0, 0⟩]⟩

lemma cBad_invalid : ¬ cBad.is_valid := by
  unfold Curve.is_valid cBad
  simp

/-- C1 counterexample: on the invalid one point curve, resolve fails with
NotOnTheCurve and not with InvalidGeometry, refuting the claim that every
operation requiring validity fails with InvalidGeometry. -/
theorem C1_counterexample :
    ¬ cBad.is_valid ∧
    cBad.resolve ⟨0, 0⟩ = .error .NotOnTheCurve ∧
    cBad.resolve ⟨0, 0⟩ ≠ .error .InvalidGeometry := by
  refine ⟨cBad_invalid, ?_, ?_⟩
  · unfold Curve.resolve
    rw [if_pos (by unfold Curve.length cBad euclidean_length lines; simp)]
  · unfold Curve.resolve
    rw [if_pos (by unfold Curve.length cBad euclidean_length lines; simp)]
    simp

/-- C1 witness: the amended gate evaluated on the one point curve. -/
theorem C1_invalid_gate_witness :
    ¬ cBad.is_valid ∧ cBad.project ⟨1, 1⟩ = .error .InvalidGeometry ∧
      cBad.resolve ⟨1, 0⟩ = .error .NotOnTheCurve ∧
      cBad.get_normal 0 = .error .NotOnTheCurve :=
  ⟨cBad_invalid, (C1_invalid_gate cBad cBad_invalid).1 ⟨1, 1⟩,
    (C1_invalid_gate cBad cBad_invalid).2.1 ⟨1, 0⟩,
    (C1_invalid_gate cBad cBad_invalid).2.2 0⟩



lemma Line.distance_to_point_nonneg (l : Line) (p : Point) : 0 ≤ l.distance_to_point p :=
  Real.sqrt_nonneg _

lemma euclidean_distance_nonneg (p : Point) (ls : LineString) :
    0 ≤ p.euclidean_distance ls := by
  unfold Point.euclidean_distance
  rcases hl : lines ls with _ | ⟨l, rest⟩
  · exact le_refl 0
  · have hfold : ∀ (xs : List Line) (init : ℝ), 0 ≤ init →
        0 ≤ xs.foldl (fun acc seg => min acc (seg.distance_to_point p)) init := by
      intro xs
      induction xs with
      | nil =>
        intro init hinit
        simpa using hinit
      | cons y ys ih =>
        intro init hinit
        simp only [List.foldl_cons]
        exact ih _ (le_min hinit (y.distance_to_point_nonneg p))
    exact hfold rest _ (l.distance_to_point_nonneg p)

/-- C2: for every successful projection the sign of the offset is decided by
the orientation of the point against the directed segment from the polyline's
last coordinate to its first: a clockwise orientation gives a nonnegative
offset and any other orientation a nonpositive one; concretely, projecting
the two unit points onto the test path gives distance one and offsets one and
minus one. -/
theorem C2_projection_sign (c : Curve) (p : Point) (proj : CurveProjection)
    (h : c.project p = .ok proj) :
    (orient2d p (c.geom.getLastD ⟨0, 0⟩) (c.geom.headD ⟨0, 0⟩) = .Clockwise →
      0 ≤ proj.offset) ∧
    (orient2d p (c.geom.getLastD ⟨0, 0⟩) (c.geom.headD ⟨0, 0⟩) ≠ .Clockwise →
      proj.offset ≤ 0) ∧
    curve2.project ⟨1, 1⟩ = .ok ⟨1, 1⟩ ∧
    curve2.project ⟨1, -1⟩ = .ok ⟨1, -1⟩ := by
  have hd := euclidean_distance_nonneg p c.geom
  have hkey : proj.offset = trunc (p.euclidean_distance c.geom *
      (match orient2d p (c.geom.getLastD ⟨0, 0⟩) (c.geom.headD ⟨0, 0⟩) with
        | .Clockwise => (1:ℝ)
        | _ => -1)) := by
    unfold Curve.project at h
    by_cases hv : c.is_valid
    · rw [if_pos hv] at h
      rcases hloc : line_locate_point c.geom p with _ | loc <;> rw [hloc] at h
      · simp at h
      · simp only [Except.ok.injEq] at h
        rw [← h]
    · rw [if_neg hv] at h
      simp at h
  refine ⟨?_, ?_, project_11, project_1m1⟩
  · intro horient
    rw [hkey, horient]
    have : 0 ≤ trunc (p.euclidean_distance c.geom * 1) := trunc_nonneg (by simpa using hd)
    exact this
  · intro horient
    rcases ho : orient2d p (c.geom.getLastD ⟨0, 0⟩) (c.geom.headD ⟨0, 0⟩) with _ | _ | _
    · exact absurd ho horient
    · rw [hkey, ho]
      have : trunc (p.euclidean_distance c.geom * -1) ≤ 0 :=
        trunc_nonpos (by simpa using neg_nonpos.mpr hd)
      exact this
    · rw [hkey, ho]
      have : trunc (p.euclidean_distance c.geom * -1) ≤ 0 :=
        trunc_nonpos (by simpa using neg_nonpos.mpr hd)
      exact this

/-- C2 witness: the sign theorem applied to the test path at the unit point. -/
theorem C2_projection_sign_witness :
    (orient2d ⟨1, 1⟩ (curve2.geom.getLastD ⟨0, 0⟩) (curve2.geom.headD ⟨0, 0⟩) = .Clockwise →
      0 ≤ (CurveProjection.mk 1 1).offset) ∧
    (orient2d ⟨1, 1⟩ (curve2.geom.getLastD ⟨0, 0⟩) (curve2.geom.headD ⟨0, 0⟩) ≠ .Clockwise →
      (CurveProjection.mk 1 1).offset ≤ 0) ∧
    curve2.project ⟨1, 1⟩ = .ok ⟨1, 1⟩ ∧
    curve2.project ⟨1, -1⟩ = .ok ⟨1, -1⟩ :=
  C2_projection_sign curve2 ⟨1, 1⟩ ⟨1, 1⟩ project_11



/-- C3: resolve computes the fraction distance minus start offset over the
integer length and fails with NotOnTheCurve exactly when the integer length is
zero, which makes the fraction of the f64 source non-finite, or the fraction
falls outside the closed unit interval; otherwise it returns the polyline
interpolated at that fraction.  Concretely, on the test path distance one
resolves to the point one unit east and distance four fails. -/
theorem C3_resolve (c : Curve) (pr : CurveProjection) :
    (c.length = 0 ∨
        ((pr.distance_along_curve : ℝ) - (c.start_offset : ℝ)) / (c.length : ℝ) < 0 ∨
        1 < ((pr.distance_along_curve : ℝ) - (c.start_offset : ℝ)) / (c.length : ℝ) →
      c.resolve pr = .error .NotOnTheCurve) ∧
    (c.length ≠ 0 →
      0 ≤ ((pr.distance_along_curve : ℝ) - (c.start_offset : ℝ)) / (c.length : ℝ) →
      ((pr.distance_along_curve : ℝ) - (c.start_offset : ℝ)) / (c.length : ℝ) ≤ 1 →
      c.resolve pr = .ok (line_interpolate_point c.geom
        (((pr.distance_along_curve : ℝ) - (c.start_offset : ℝ)) / (c.length : ℝ)))) ∧
    curve2.resolve ⟨1, 0⟩ = .ok ⟨1, 0⟩ ∧
    curve2.resolve ⟨4, 0⟩ = .error .NotOnTheCurve := by
  refine ⟨?_, ?_, resolve_curve2_1, resolve_curve2_4⟩
  · rintro (h0 | hneg | hbig)
    · unfold Curve.resolve
      rw [if_pos h0]
    · unfold Curve.resolve
      by_cases h0 : c.length = 0
      · rw [if_pos h0]
      · rw [if_neg h0, if_pos (Or.inl hneg)]
    · unfold Curve.resolve
      by_cases h0 : c.length = 0
      · rw [if_pos h0]
      · rw [if_neg h0, if_pos (Or.inr hbig)]
  · intro h0 hge hle
    unfold Curve.resolve
    rw [if_neg h0, if_neg (not_or.mpr ⟨not_lt.mpr hge, not_lt.mpr hle⟩)]

/-- C3 witness: the resolve theorem evaluated out of range on the test path. -/
theorem C3_resolve_witness :
    curve2.resolve ⟨4, 0⟩ = .error .NotOnTheCurve :=
  (C3_resolve curve2 ⟨4, 0⟩).1 (Or.inr (Or.inr (by
    rw [curve2_length]
    push_cast [curve2]
    norm_num)))

/-- C8: the integer length of a curve is the total euclidean length truncated
toward zero, so it is bounded above by the euclidean length and is within one
of it; concretely the test path from the origin to two units east has length
exactly two. -/
theorem C8_length_trunc (c : Curve) :
    ((c.length : ℝ) ≤ euclidean_length c.geom ∧
      euclidean_length c.geom < (c.length : ℝ) + 1) ∧
    curve2.length = 2 := by
  refine ⟨⟨?_, ?_⟩, curve2_length⟩
  · exact Nat.floor_le (eulen_nonneg c.geom)
  · exact_mod_cast Nat.lt_floor_add_one (euclidean_length c.geom)

/-- C7: with the geometry unchanged, replacing a zero start offset by s shifts
a successful projection's distance_along_curve by exactly s and leaves the
lateral offset unchanged. -/
theorem C7_offset_shift (c : Curve) (p : Point) (s : ℕ) (proj : CurveProjection)
    (h0 : c.start_offset = 0) (h : c.project p = .ok proj) :
    Curve.project ⟨s, c.max_extent, c.geom⟩ p =
      .ok ⟨proj.distance_along_curve + s, proj.offset⟩ := by
  unfold Curve.project at h ⊢
  by_cases hv : c.is_valid
  · have hv' : (Curve.mk s c.max_extent c.geom).is_valid := by
      unfold Curve.is_valid at hv ⊢
      exact hv
    rw [if_pos hv] at h
    rw [if_pos hv']
    rcases hloc : line_locate_point c.geom p with _ | loc
    · rw [hloc] at h
      simp at h
    · rw [hloc] at h
      simp only [Except.ok.injEq] at h
      simp only [hloc, Except.ok.injEq]
      rw [← h, h0]
      simp [Nat.add_comm]
  · rw [if_neg hv] at h
    simp at h

/-- C7 witness: shifting the test curve start offset by one moves the
projection of the lower unit point from distance one to distance two. -/
theorem C7_offset_shift_witness :
    Curve.project ⟨1, curve2.max_extent, curve2.geom⟩ ⟨1, -1⟩ = .ok ⟨2, -1⟩ :=
  C7_offset_shift curve2 ⟨1, -1⟩ 1 ⟨1, -1⟩ rfl project_1m1



lemma foldl_min_le (g : Point → ℝ) (xs : List Point) :
    ∀ init : ℝ,
      xs.foldl (fun a q => min a (g q)) init ≤ init ∧
      ∀ q ∈ xs, xs.foldl (fun a q => min a (g q)) init ≤ g q := by
  induction xs with
  | nil =>
    intro init
    exact ⟨le_refl _, by simp⟩
  | cons y ys ih =>
    intro init
    constructor
    · exact le_trans (ih (min init (g y))).1 (min_le_left _ _)
    · intro q hq
      rcases List.mem_cons.mp hq with rfl | hq'
      · exact le_trans (ih _).1 (min_le_right _ _)
      · exact (ih _).2 q hq'

lemma foldl_min_mem (g : Point → ℝ) (xs : List Point) :
    ∀ init : ℝ,
      xs.foldl (fun a q => min a (g q)) init = init ∨
      ∃ q ∈ xs, xs.foldl (fun a q => min a (g q)) init = g q := by
  induction xs with
  | nil =>
    intro init
    exact Or.inl rfl
  | cons y ys ih =>
    intro init
    rcases ih (min init (g y)) with h | ⟨q, hq, hval⟩
    · by_cases hc : init ≤ g y
      · left
        rw [List.foldl_cons, h, min_eq_left hc]
      · right
        exact ⟨y, List.mem_cons_self y ys, by
          rw [List.foldl_cons, h, min_eq_right (le_of_not_le hc)]⟩
    · right
      exact ⟨q, List.mem_cons_of_mem y hq, by rw [List.foldl_cons]; exact hval⟩

lemma foldl_max_le (g : Point → ℝ) (xs : List Point) :
    ∀ init : ℝ,
      init ≤ xs.foldl (fun a q => max a (g q)) init ∧
      ∀ q ∈ xs, g q ≤ xs.foldl (fun a q => max a (g q)) init := by
  induction xs with
  | nil =>
    intro init
    exact ⟨le_refl _, by simp⟩
  | cons y ys ih =>
    intro init
    constructor
    · exact le_trans (le_max_left _ _) (ih (max init (g y))).1
    · intro q hq
      rcases List.mem_cons.mp hq with rfl | hq'
      · exact le_trans (le_max_right _ _) (ih _).1
      · exact (ih _).2 q hq'

lemma foldl_max_mem (g : Point → ℝ) (xs : List Point) :
    ∀ init : ℝ,
      xs.foldl (fun a q => max a (g q)) init = init ∨
      ∃ q ∈ xs, xs.foldl (fun a q => max a (g q)) init = g q := by
  induction xs with
  | nil =>
    intro init
    exact Or.inl rfl
  | cons y ys ih =>
    intro init
    rcases ih (max init (g y)) with h | ⟨q, hq, hval⟩
    · by_cases hc : g y ≤ init
      · left
        rw [List.foldl_cons, h, max_eq_left hc]
      · right
        exact ⟨y, List.mem_cons_self y ys, by
          rw [List.foldl_cons, h, max_eq_right (le_of_not_le hc)]⟩
    · right
      exact ⟨q, List.mem_cons_of_mem y hq, by rw [List.foldl_cons]; exact hval⟩

/-- C9: for a curve with a non-empty geometry the bounding box is the tight
axis-aligned rectangle of the polyline expanded by max_extent on all four
sides: every coordinate point lies at least max_extent inside each side, and
each of the four sides is attained by some coordinate at distance exactly
max_extent; concretely the test path with max extent one has box corners
(-1,-1) and (3,1). -/
theorem C9_bbox (c : Curve) (hne : c.geom ≠ []) :
    (∃ r : Rect, c.bbox = some r ∧
      (∀ q ∈ c.geom, r.min.x + (c.max_extent : ℝ) ≤ q.x ∧ q.x + (c.max_extent : ℝ) ≤ r.max.x ∧
        r.min.y + (c.max_extent : ℝ) ≤ q.y ∧ q.y + (c.max_extent : ℝ) ≤ r.max.y) ∧
      (∃ q ∈ c.geom, q.x = r.min.x + (c.max_extent : ℝ)) ∧
      (∃ q ∈ c.geom, q.x + (c.max_extent : ℝ) = r.max.x) ∧
      (∃ q ∈ c.geom, q.y = r.min.y + (c.max_extent : ℝ)) ∧
      (∃ q ∈ c.geom, q.y + (c.max_extent : ℝ) = r.max.y)) ∧
    curve2.bbox = some ⟨⟨-1, -1⟩, ⟨3, 1⟩⟩ := by
  refine ⟨?_, bbox_curve2⟩
  rcases hg : c.geom with _ | ⟨p, rest⟩
  · exact absurd hg hne
  set e : ℝ := (c.max_extent : ℝ) with he
  refine ⟨⟨⟨rest.foldl (fun a q => min a q.x) p.x - e, rest.foldl (fun a q => min a q.y) p.y - e⟩,
    ⟨rest.foldl (fun a q => max a q.x) p.x + e, rest.foldl (fun a q => max a q.y) p.y + e⟩⟩,
    ?_, ?_, ?_, ?_, ?_, ?_⟩
  all_goals dsimp only
  · unfold Curve.bbox
    rw [hg]
    unfold bounding_rect
    simp
  · intro q hq
    rcases List.mem_cons.mp hq with rfl | hq'
    · refine ⟨?_, ?_, ?_, ?_⟩
      · linarith [(foldl_min_le (fun r => r.x) rest q.x).1]
      · linarith [(foldl_max_le (fun r => r.x) rest q.x).1]
      · linarith [(foldl_min_le (fun r => r.y) rest q.y).1]
      · linarith [(foldl_max_le (fun r => r.y) rest q.y).1]
    · refine ⟨?_, ?_, ?_, ?_⟩
      · linarith [(foldl_min_le (fun r => r.x) rest p.x).2 q hq']
      · linarith [(foldl_max_le (fun r => r.x) rest p.x).2 q hq']
      · linarith [(foldl_min_le (fun r => r.y) rest p.y).2 q hq']
      · linarith [(foldl_max_le (fun r => r.y) rest p.y).2 q hq']
  · rcases foldl_min_mem (fun r => r.x) rest p.x with h | ⟨q, hq, hval⟩
    · exact ⟨p, List.mem_cons_self p rest, by rw [h]; ring⟩
    · exact ⟨q, List.mem_cons_of_mem p hq, by rw [hval]; ring⟩
  · rcases foldl_max_mem (fun r => r.x) rest p.x with h | ⟨q, hq, hval⟩
    · exact ⟨p, List.mem_cons_self p rest, by rw [h]⟩
    · exact ⟨q, List.mem_cons_of_mem p hq, by rw [hval]⟩
  · rcases foldl_min_mem (fun r => r.y) rest p.y with h | ⟨q, hq, hval⟩
    · exact ⟨p, List.mem_cons_self p rest, by rw [h]; ring⟩
    · exact ⟨q, List.mem_cons_of_mem p hq, by rw [hval]; ring⟩
  · rcases foldl_max_mem (fun r => r.y) rest p.y with h | ⟨q, hq, hval⟩
    · exact ⟨p, List.mem_cons_self p rest, by rw [h]⟩
    · exact ⟨q, List.mem_cons_of_mem p hq, by rw [hval]⟩

/-- C9 witness: the bounding box theorem evaluated on the test curve. -/
theorem C9_bbox_witness :
    curve2.bbox = some ⟨⟨-1, -1⟩, ⟨3, 1⟩⟩ :=
  (C9_bbox curve2 (by simp [curve2, geom2])).2



lemma pick_crossing_none (seg l' : Line)
    (h : line_intersection seg l' = none ∨
      ∃ ovl, line_intersection seg l' = some (.Collinear ovl)) :
    pick_crossing seg l' = none := by
  unfold pick_crossing
  rcases h with h | ⟨ovl, h⟩ <;> rw [h]

/-- C5: intersect_segment scans the constituent segments in polyline order
and returns the first single-point crossing: if every earlier segment yields
no crossing or only a collinear overlap and one segment yields a single
crossing point, that point is returned; if every segment yields no crossing
or a collinear overlap the result is the absent value, never an error.
Concretely, the perpendicular test segment meets the test path at (1,0), the
disjoint and the collinear test segments give nothing, and on the two leg
path the crossing of the first leg in polyline order is returned. -/
theorem C5_intersect (c : Curve) (seg : Line) :
    (∀ (pre post : List Line) (l : Line) (pt : Point) (br : Bool),
      lines c.geom = pre ++ l :: post →
      (∀ l' ∈ pre, line_intersection seg l' = none ∨
        ∃ ovl, line_intersection seg l' = some (.Collinear ovl)) →
      line_intersection seg l = some (.SinglePoint pt br) →
      c.intersect_segment seg = some pt) ∧
    ((∀ l' ∈ lines c.geom, line_intersection seg l' = none ∨
        ∃ ovl, line_intersection seg l' = some (.Collinear ovl)) →
      c.intersect_segment seg = none) ∧
    curve2.intersect_segment vseg = some ⟨1, 0⟩ ∧
    curve2.intersect_segment farseg = none ∧
    curve2.intersect_segment colseg = none ∧
    curve3.intersect_segment hseg = some ⟨1 / 2, 1⟩ := by
  refine ⟨?_, ?_, isect_cross, isect_far, isect_col, isect_multi⟩
  · intro pre post l pt br hsplit hpre hl
    unfold Curve.intersect_segment
    rw [hsplit, List.filterMap_append]
    have hpre' : pre.filterMap (pick_crossing seg) = [] :=
      List.filterMap_eq_nil_iff.mpr fun l' hm => pick_crossing_none seg l' (hpre l' hm)
    rw [hpre', List.nil_append, List.filterMap_cons]
    rw [show pick_crossing seg l = some pt by unfold pick_crossing; rw [hl]]
    rfl
  · intro hall
    unfold Curve.intersect_segment
    rw [List.filterMap_eq_nil_iff.mpr fun l' hm => pick_crossing_none seg l' (hall l' hm)]
    rfl

/-- C5 witness: the scan theorem applied to the two leg path, whose first leg
crossing is returned even though the second leg also crosses. -/
theorem C5_intersect_witness :
    curve3.intersect_segment hseg = some ⟨1 / 2, 1⟩ :=
  (C5_intersect curve3 hseg).1 [] [l32] l31 ⟨1 / 2, 1⟩ true lines_geom3
    (by intro l' hm; simp at hm) li_h1



lemma lens_sum_nonneg (xs : List Line) : 0 ≤ (xs.map Line.euclidean_length).sum := by
  refine List.sum_nonneg ?_
  intro x hx
  obtain ⟨l, _, rfl⟩ := List.mem_map.mp hx
  exact l.euclidean_length_nonneg

lemma locate_go_bounds (p : Point) (total : ℝ) (htotal : 0 < total) (segs : List Line) :
    ∀ (cum bd bf : ℝ),
      0 ≤ cum → cum + ((segs.map Line.euclidean_length).sum) ≤ total →
      0 ≤ bf → bf ≤ 1 →
      0 ≤ locate_go p total segs cum bd bf ∧ locate_go p total segs cum bd bf ≤ 1 := by
  induction segs with
  | nil =>
    intro cum bd bf _ _ h0 h1
    simp only [locate_go]
    exact ⟨h0, h1⟩
  | cons l rest ih =>
    intro cum bd bf hcum hsum h0 h1
    have hlen : 0 ≤ l.euclidean_length := l.euclidean_length_nonneg
    have hrest : 0 ≤ ((rest.map Line.euclidean_length).sum) := lens_sum_nonneg rest
    have hsum' : (cum + l.euclidean_length) + ((rest.map Line.euclidean_length).sum) ≤ total := by
      simp only [List.map_cons, List.sum_cons] at hsum
      linarith
    simp only [locate_go]
    split_ifs with hd
    · refine ih (cum + l.euclidean_length) _ _ (by linarith) hsum' ?_ ?_
      · have ht := l.line_locate_point_nonneg p
        have := mul_nonneg ht hlen
        positivity
      · rw [div_le_one htotal]
        have ht1 := l.line_locate_point_le_one p
        have : l.line_locate_point p * l.euclidean_length ≤ l.euclidean_length :=
          mul_le_of_le_one_left hlen ht1
        linarith
    · exact ih (cum + l.euclidean_length) _ _ (by linarith) hsum' h0 h1

lemma line_locate_point_bounds (ls : LineString) (p : Point) (loc : ℝ)
    (h : line_locate_point ls p = some loc) : 0 ≤ loc ∧ loc ≤ 1 := by
  simp only [line_locate_point] at h
  split_ifs at h with h0
  · simp only [Option.some.injEq] at h
    subst h
    exact ⟨le_refl 0, zero_le_one⟩
  · have htotal : 0 < euclidean_length ls :=
      lt_of_le_of_ne (eulen_nonneg ls) (Ne.symm h0)
    rcases hl : lines ls with _ | ⟨l, rest⟩ <;> rw [hl] at h
    · simp only [Option.some.injEq] at h
      subst h
      exact ⟨le_refl 0, zero_le_one⟩
    · simp only [Option.some.injEq] at h
      subst h
      have hlen : 0 ≤ l.euclidean_length := l.euclidean_length_nonneg
      have hsum : l.euclidean_length + ((rest.map Line.euclidean_length).sum) =
          euclidean_length ls := by
        unfold euclidean_length
        rw [hl]
        simp
      have hrest : 0 ≤ ((rest.map Line.euclidean_length).sum) := lens_sum_nonneg rest
      refine locate_go_bounds p (euclidean_length ls) htotal rest _ _ _ hlen
        (by linarith) ?_ ?_
      · have ht := l.line_locate_point_nonneg p
        positivity
      · rw [div_le_one htotal]
        have ht1 := l.line_locate_point_le_one p
        have : l.line_locate_point p * l.euclidean_length ≤ l.euclidean_length :=
          mul_le_of_le_one_left hlen ht1
        linarith

/-- C10: on a valid curve of integer length at least one, resolving the
projection returned by a successful project always succeeds: the truncated
distance along the curve never exceeds the integer length, so the fraction
recomputed by resolve stays inside the closed unit interval. -/
theorem C10_project_resolve (c : Curve) (p : Point) (proj : CurveProjection)
    (hv : c.is_valid) (hlen : 1 ≤ c.length) (h : c.project p = .ok proj) :
    ∃ pt : Point, c.resolve proj = .ok pt := by
  unfold Curve.project at h
  rw [if_pos hv] at h
  rcases hloc : line_locate_point c.geom p with _ | loc <;> rw [hloc] at h
  · simp at h
  · simp only [Except.ok.injEq] at h
    obtain ⟨hloc0, hloc1⟩ := line_locate_point_bounds c.geom p loc hloc
    have hdac : proj.distance_along_curve =
        ⌊loc * euclidean_length c.geom⌋₊ + c.start_offset := by
      rw [← h]
    have hfloor : ⌊loc * euclidean_length c.geom⌋₊ ≤ c.length := by
      unfold Curve.length
      exact Nat.floor_le_floor
        (mul_le_of_le_one_left (eulen_nonneg c.geom) hloc1)
    have hlen0 : c.length ≠ 0 := by omega
    have hlenpos : (0:ℝ) < (c.length : ℝ) := by
      exact_mod_cast Nat.pos_of_ne_zero hlen0
    refine ⟨line_interpolate_point c.geom
      (((proj.distance_along_curve : ℝ) - (c.start_offset : ℝ)) / (c.length : ℝ)), ?_⟩
    unfold Curve.resolve
    rw [if_neg hlen0]
    rw [if_neg ?_]
    push_neg
    constructor
    · refine div_nonneg ?_ (le_of_lt hlenpos)
      rw [hdac]
      push_cast
      simp
    · rw [div_le_one hlenpos, hdac]
      push_cast
      have : (⌊loc * euclidean_length c.geom⌋₊ : ℝ) ≤ (c.length : ℝ) := by
        exact_mod_cast hfloor
      linarith

/-- C10 witness: projecting then resolving succeeds on the test path. -/
theorem C10_project_resolve_witness :
    ∃ pt : Point, curve2.resolve ⟨1, 1⟩ = .ok pt :=
  C10_project_resolve curve2 ⟨1, 1⟩ ⟨1, 1⟩ curve2_valid
    (by rw [curve2_length]; norm_num) project_11



lemma orient2d_collinear_cross (p q r : Point)
    (h : orient2d p q r = .Collinear) :
    (q.x - p.x) * (r.y - p.y) - (q.y - p.y) * (r.x - p.x) = 0 := by
  simp only [orient2d] at h
  by_cases h1 : (q.x - p.x) * (r.y - p.y) - (q.y - p.y) * (r.x - p.x) < 0
  · rw [if_pos h1] at h
    exact absurd h (by simp)
  · rw [if_neg h1] at h
    by_cases h2 : 0 < (q.x - p.x) * (r.y - p.y) - (q.y - p.y) * (r.x - p.x)
    · rw [if_pos h2] at h
      exact absurd h (by simp)
    · linarith

lemma collinear_param_x (dx dy px py : ℝ) (hd2 : dx ^ 2 + dy ^ 2 ≠ 0)
    (hcross : dx * py - dy * px = 0) :
    (px * dx + py * dy) / (dx ^ 2 + dy ^ 2) * dx = px := by
  field_simp
  linear_combination dy * hcross

lemma collinear_param_y (dx dy px py : ℝ) (hd2 : dx ^ 2 + dy ^ 2 ≠ 0)
    (hcross : dx * py - dy * px = 0) :
    (px * dx + py * dy) / (dx ^ 2 + dy ^ 2) * dy = py := by
  field_simp
  linear_combination (-dx) * hcross

lemma contains_interp (l : Line) (pt : Point) (h : line_contains l pt) :
    l.interp (l.line_locate_point pt) = pt := by
  obtain ⟨hcol, hbb⟩ := h
  have hcross := orient2d_collinear_cross l.start l.stop pt hcol
  unfold Line.bounding_rect Rect.holds at hbb
  dsimp only at hbb
  obtain ⟨hx1, hx2, hy1, hy2⟩ := hbb
  unfold Line.line_locate_point Line.interp
  set dx := l.stop.x - l.start.x with hdx
  set dy := l.stop.y - l.start.y with hdy
  set px := pt.x - l.start.x with hpxd
  set py := pt.y - l.start.y with hpyd
  have hxx1 : min 0 dx ≤ px := by
    rcases le_total 0 dx with hs | hs
    · have hmin : min l.start.x l.stop.x = l.start.x := min_eq_left (by linarith)
      rw [hmin] at hx1
      rw [min_eq_left hs]
      linarith
    · have hmin : min l.start.x l.stop.x = l.stop.x := min_eq_right (by linarith)
      rw [hmin] at hx1
      rw [min_eq_right hs]
      linarith
  have hxx2 : px ≤ max 0 dx := by
    rcases le_total 0 dx with hs | hs
    · have hmax : max l.start.x l.stop.x = l.stop.x := max_eq_right (by linarith)
      rw [hmax] at hx2
      rw [max_eq_right hs]
      linarith
    · have hmax : max l.start.x l.stop.x = l.start.x := max_eq_left (by linarith)
      rw [hmax] at hx2
      rw [max_eq_left hs]
      linarith
  have hyy1 : min 0 dy ≤ py := by
    rcases le_total 0 dy with hs | hs
    · have hmin : min l.start.y l.stop.y = l.start.y := min_eq_left (by linarith)
      rw [hmin] at hy1
      rw [min_eq_left hs]
      linarith
    · have hmin : min l.start.y l.stop.y = l.stop.y := min_eq_right (by linarith)
      rw [hmin] at hy1
      rw [min_eq_right hs]
      linarith
  have hyy2 : py ≤ max 0 dy := by
    rcases le_total 0 dy with hs | hs
    · have hmax : max l.start.y l.stop.y = l.stop.y := max_eq_right (by linarith)
      rw [hmax] at hy2
      rw [max_eq_right hs]
      linarith
    · have hmax : max l.start.y l.stop.y = l.start.y := max_eq_left (by linarith)
      rw [hmax] at hy2
      rw [max_eq_left hs]
      linarith
  have hpdx : 0 ≤ px * dx := by
    rcases le_total 0 dx with hs | hs
    · have : 0 ≤ px := by
        have := hxx1
        rw [min_eq_left hs] at this
        linarith
      exact mul_nonneg this hs
    · have : px ≤ 0 := by
        have := hxx2
        rw [max_eq_left hs] at this
        linarith
      exact mul_nonneg_of_nonpos_of_nonpos this hs
  have hpdy : 0 ≤ py * dy := by
    rcases le_total 0 dy with hs | hs
    · have : 0 ≤ py := by
        have := hyy1
        rw [min_eq_left hs] at this
        linarith
      exact mul_nonneg this hs
    · have : py ≤ 0 := by
        have := hyy2
        rw [max_eq_left hs] at this
        linarith
      exact mul_nonneg_of_nonpos_of_nonpos this hs
  have hqdx : dx * (px - dx) ≤ 0 := by
    rcases le_total 0 dx with hs | hs
    · have : px ≤ dx := by
        have := hxx2
        rw [max_eq_right hs] at this
        linarith
      exact mul_nonpos_of_nonneg_of_nonpos hs (by linarith)
    · have : dx ≤ px := by
        have := hxx1
        rw [min_eq_right hs] at this
        linarith
      exact mul_nonpos_of_nonpos_of_nonneg hs (by linarith)
  have hqdy : dy * (py - dy) ≤ 0 := by
    rcases le_total 0 dy with hs | hs
    · have : py ≤ dy := by
        have := hyy2
        rw [max_eq_right hs] at this
        linarith
      exact mul_nonpos_of_nonneg_of_nonpos hs (by linarith)
    · have : dy ≤ py := by
        have := hyy1
        rw [min_eq_right hs] at this
        linarith
      exact mul_nonpos_of_nonpos_of_nonneg hs (by linarith)
  by_cases hd2 : dx ^ 2 + dy ^ 2 = 0
  · have hdx0 : dx = 0 := by nlinarith [sq_nonneg dx, sq_nonneg dy]
    have hdy0 : dy = 0 := by nlinarith [sq_nonneg dx, sq_nonneg dy]
    rw [if_pos hd2]
    rw [show pt = Point.mk pt.x pt.y from rfl, Point.mk.injEq]
    have hpx0 : px = 0 := by
      rw [hdx0] at hxx1 hxx2
      simp at hxx1 hxx2
      linarith
    have hpy0 : py = 0 := by
      rw [hdy0] at hyy1 hyy2
      simp at hyy1 hyy2
      linarith
    constructor
    · have : pt.x = l.start.x + px := by rw [hpxd]; ring
      rw [this, hpx0]
      ring
    · have : pt.y = l.start.y + py := by rw [hpyd]; ring
      rw [this, hpy0]
      ring
  · rw [if_neg hd2]
    have hd2pos : 0 < dx ^ 2 + dy ^ 2 :=
      lt_of_le_of_ne (by positivity) (Ne.symm hd2)
    have hlam0 : 0 ≤ (px * dx + py * dy) / (dx ^ 2 + dy ^ 2) :=
      div_nonneg (by linarith) (le_of_lt hd2pos)
    have hlam1 : (px * dx + py * dy) / (dx ^ 2 + dy ^ 2) ≤ 1 := by
      rw [div_le_one hd2pos]
      nlinarith [hqdx, hqdy]
    rw [max_eq_right hlam0, min_eq_right hlam1]
    rw [show pt = Point.mk pt.x pt.y from rfl, Point.mk.injEq]
    constructor
    · rw [collinear_param_x dx dy px py hd2 (by linarith [hcross])]
      rw [hpxd]
      ring
    · rw [collinear_param_y dx dy px py hd2 (by linarith [hcross])]
      rw [hpyd]
      ring



lemma find_segment_contains (p : Point) (ls : List Line) (l : Line)
    (h : find_segment p ls = some l) : line_contains l p := by
  induction ls with
  | nil => simp [find_segment] at h
  | cons x xs ih =>
    unfold find_segment at h
    split_ifs at h with hc
    · simp only [Option.some.injEq] at h
      subst h
      exact hc
    · exact ih h

lemma code_transform_eq_spec (seg : Line) (pt q : Point)
    (hpt : seg.interp (seg.line_locate_point pt) = pt) :
    translate_by ((seg.stop.x - seg.start.x) * seg.line_locate_point pt)
        ((seg.stop.y - seg.start.y) * seg.line_locate_point pt)
        (scale_about (1 / seg.euclidean_length) seg.start (rotate90_about seg.start q)) =
    normal_spec_map seg pt q := by
  have hx : seg.start.x + seg.line_locate_point pt * (seg.stop.x - seg.start.x) = pt.x :=
    congrArg Point.x hpt
  have hy : seg.start.y + seg.line_locate_point pt * (seg.stop.y - seg.start.y) = pt.y :=
    congrArg Point.y hpt
  unfold normal_spec_map translate_by scale_about rotate90_about
  rw [Point.mk.injEq]
  constructor
  · rw [← hx, ← hy]
    ring
  · rw [← hx, ← hy]
    ring

/-- C4: get_normal resolves the distance to a point and looks for the
polyline segment containing it: when no segment contains the point it fails
with NotFiniteCoordinates, and when one does, the returned normal is exactly
the spec's transform composition applied to that segment: translate so the
segment start coincides with the resolved point, uniformly scale by the
inverse of the segment length, then rotate ninety degrees about the
translated start point.  Concretely the normal at distance one on the test
path is the unit segment from (1,0) to (1,1). -/
theorem C4_normal (c : Curve) (d : ℕ) :
    (∀ point : Point, c.resolve ⟨d, 0⟩ = .ok point →
      find_segment point (lines c.geom) = none →
      c.get_normal d = .error .NotFiniteCoordinates) ∧
    (∀ (point : Point) (seg ln : Line), c.resolve ⟨d, 0⟩ = .ok point →
      find_segment point (lines c.geom) = some seg →
      c.get_normal d = .ok ln →
      ln.start = normal_spec_map seg point seg.start ∧
      ln.stop = normal_spec_map seg point seg.stop) ∧
    curve2.get_normal 1 = .ok ⟨⟨1, 0⟩, ⟨1, 1⟩⟩ := by
  refine ⟨?_, ?_, normal_curve2_1⟩
  · intro point hres hfind
    unfold Curve.get_normal
    simp only [hres, hfind]
  · intro point seg ln hres hfind h
    have hcont := find_segment_contains point (lines c.geom) seg hfind
    have hpt := contains_interp seg point hcont
    unfold Curve.get_normal at h
    simp only [hres, hfind, Except.ok.injEq] at h
    rw [← h]
    dsimp only
    constructor
    · exact code_transform_eq_spec seg point seg.start hpt
    · exact code_transform_eq_spec seg point seg.stop hpt

/-- C4 witness: the normal theorem applied on the test path at distance one,
where the resolved point is the middle of the single segment. -/
theorem C4_normal_witness :
    (Line.mk ⟨1, 0⟩ ⟨1, 1⟩).start = normal_spec_map seg2 ⟨1, 0⟩ seg2.start ∧
    (Line.mk ⟨1, 0⟩ ⟨1, 1⟩).stop = normal_spec_map seg2 ⟨1, 0⟩ seg2.stop :=
  (C4_normal curve2 1).2.1 ⟨1, 0⟩ seg2 ⟨⟨1, 0⟩, ⟨1, 1⟩⟩ resolve_curve2_1
    (by rw [show lines curve2.geom = [seg2] from rfl]; exact find_segment_geom2_10)
    normal_curve2_1



/-- C6: new_fragmented computes the piece count n as the ceiling of the total
euclidean length over max_len, delegates the equal-length segmentation of the
polyline into n pieces to the kernel, and wraps each piece as a curve with
start offset zero and the given max extent; when the polyline cannot be
segmented the result is the empty list rather than an error.  Concretely,
fragmenting the length two test path with max_len one yields exactly two
pieces, each of integer length one. -/
theorem C6_fragment (geom : LineString) (max_len max_ext : ℕ) :
    (line_segmentize geom (⌈euclidean_length geom / (max_len : ℝ)⌉).toNat = none →
      Curve.new_fragmented geom max_len max_ext = []) ∧
    (∀ pieces,
      line_segmentize geom (⌈euclidean_length geom / (max_len : ℝ)⌉).toNat = some pieces →
      Curve.new_fragmented geom max_len max_ext = pieces.map (fun g => Curve.new g max_ext) ∧
      ∀ c ∈ Curve.new_fragmented geom max_len max_ext,
        c.start_offset = 0 ∧ c.max_extent = max_ext) ∧
    (∀ (n : ℕ) (pieces : List LineString),
      line_segmentize geom n = some pieces → pieces.length = n) ∧
    Curve.new_fragmented geom2 1 1 =
      [Curve.new [⟨0, 0⟩, ⟨1, 0⟩] 1, Curve.new [⟨1, 0⟩, ⟨2, 0⟩] 1] ∧
    (Curve.new_fragmented geom2 1 1).length = 2 ∧
    ∀ c ∈ Curve.new_fragmented geom2 1 1, c.length = 1 := by
  refine ⟨?_, ?_, ?_, frag_geom2, ?_, ?_⟩
  · intro h
    unfold Curve.new_fragmented
    show (Option.map (fun multi => List.map (fun g => Curve.new g max_ext) multi)
      (line_segmentize geom (⌈euclidean_length geom / (max_len : ℝ)⌉).toNat)).getD [] = []
    rw [h]
    rfl
  · intro pieces h
    have hmain : Curve.new_fragmented geom max_len max_ext =
        pieces.map (fun g => Curve.new g max_ext) := by
      unfold Curve.new_fragmented
      show (Option.map (fun multi => List.map (fun g => Curve.new g max_ext) multi)
        (line_segmentize geom (⌈euclidean_length geom / (max_len : ℝ)⌉).toNat)).getD [] = _
      rw [h]
      rfl
    refine ⟨hmain, ?_⟩
    intro c hc
    rw [hmain] at hc
    obtain ⟨g, _, rfl⟩ := List.mem_map.mp hc
    exact ⟨rfl, rfl⟩
  · intro n pieces h
    unfold line_segmentize at h
    split_ifs at h with hcond
    simp only [Option.some.injEq] at h
    rw [← h]
    simp
  · rw [frag_geom2]
    rfl
  · intro c hc
    rw [frag_geom2] at hc
    rcases List.mem_cons.mp hc with rfl | hc'
    · exact frag_piece1_length
    · rcases List.mem_cons.mp hc' with rfl | hc''
      · exact frag_piece2_length
      · simp at hc''

/-- C6 witness: the fragmentation theorem applied to the test path, with the
kernel segmentation discharged concretely. -/
theorem C6_fragment_witness :
    Curve.new_fragmented geom2 1 1 =
      [[(⟨0, 0⟩ : Point), ⟨1, 0⟩], [⟨1, 0⟩, ⟨2, 0⟩]].map (fun g => Curve.new g 1) ∧
    ∀ c ∈ Curve.new_fragmented geom2 1 1, c.start_offset = 0 ∧ c.max_extent = 1 :=
  (C6_fragment geom2 1 1).2.1 [[⟨0, 0⟩, ⟨1, 0⟩], [⟨1, 0⟩, ⟨2, 0⟩]]
    (by rw [show (⌈euclidean_length geom2 / ((1:ℕ):ℝ)⌉).toNat = 2 by
          rw [eulen_geom2]; norm_num; decide]
        exact segmentize_geom2)


end Liblrs
